import Mathlib

/-!
Verification of the message-to-metric normalization engine of
`files/app/zigbeemqttexporter.py` (an MQTT → Prometheus exporter).

The Python module is shallowly embedded as executable Lean definitions:

* JSON values decoded by `json.loads` become the inductive type `Json`;
  JSON/Python numbers are modelled as exact unnormalized decimals `PyNum`
  (the floating point rounding of CPython is outside the model; all
  concrete inputs used below are exactly representable).
* Python strings are Lean `String`s; the single-character variants of
  `str.replace`, `str.split` and `str.upper` used by the source are
  re-implemented character by character (`pyReplaceChar`, `pySplit`,
  `pyUpper`; `pyUpper` models `str.upper` on the ASCII range, which covers
  every string the source compares against).
* `bytes` payloads are modelled as `PyBytes`: either valid UTF-8 carrying
  the decoded text, or undecodable bytes (`PyBytes.invalid`).
* `float(...)` applied to a string is modelled by `pyFloat`, a parser for
  sign / digits / fraction / exponent decimal literals (the `inf`/`nan`
  words, underscores and surrounding whitespace accepted by CPython are
  outside the model; no claim depends on them).
* The Prometheus registry is external to the core being specified; it is
  modelled as an association map from metric name to a map from label
  value to gauge value (`GaugeMap`), with Python-`dict` update semantics
  (replace in place, append new keys at the end).  The message counter is
  an association map from label value to count.
* Exceptions that the source does not catch are modelled by the
  `Except PyError` monad: `attributeError` for calling `.items()` on a
  `str`, `unicodeDecodeError` for `bytes.decode()` on undecodable bytes.
  Exceptions the source catches (`ValueError`, `json.JSONDecodeError`,
  `UnicodeDecodeError` around `json.loads`, `IndexError`) are modelled by
  `Option`/branching exactly where the corresponding `try` blocks sit.
* `json.dumps` followed by `json.loads` of a string-valued dict (the
  Shelly normalization path) is the identity on that dict; the embedding
  uses this to avoid re-serializing (`NormPayload.dumpedDict`).
-/

namespace ZigbeeExporter

/-! ### Generic association maps with Python `dict` semantics -/

/-- Lookup in an association list, first match wins (Python `dict.get`). -/
def lookupA {α : Type} (k : String) : List (String × α) → Option α
  | [] => none
  | (k', v) :: rest => if k' = k then some v else lookupA k rest

/-- `d[k] = v` on an association list: replace in place if the key exists,
append at the end otherwise (Python `dict` assignment semantics). -/
def setA {α : Type} (k : String) (v : α) : List (String × α) → List (String × α)
  | [] => [(k, v)]
  | (k', v') :: rest => if k' = k then (k', v) :: rest else (k', v') :: setA k v rest

/-- The keys of an association list, in order. -/
def keysA {α : Type} (m : List (String × α)) : List String :=
  m.map Prod.fst

/-! ### Character level models of the Python string operations used -/

/-- Decimal digit test (used by the `float(...)` model). -/
def isDigitC (c : Char) : Bool :=
  decide (48 ≤ c.toNat ∧ c.toNat ≤ 57)

/-- Model of `str.upper` on one character: ASCII lowercase is mapped to
uppercase, everything else is unchanged. -/
def pyUpperChar (c : Char) : Char :=
  if 97 ≤ c.toNat ∧ c.toNat ≤ 122 then Char.ofNat (c.toNat - 32) else c

/-- Model of `str.upper`. -/
def pyUpper (s : String) : String :=
  ⟨s.data.map pyUpperChar⟩

/-- Model of `str.replace(a, b)` for single-character `a`, `b`. -/
def pyReplaceChar (a b : Char) (s : String) : String :=
  ⟨s.data.map (fun c => if c = a then b else c)⟩

/-- Model of `str.split(sep)` for a single-character separator, on lists of
characters: empty input yields `[[]]`, separators are not grouped
(CPython semantics of `split` with an explicit separator). -/
def pySplitChars (sep : Char) : List Char → List (List Char)
  | [] => [[]]
  | c :: rest =>
    let r := pySplitChars sep rest
    if c = sep then [] :: r
    else match r with
      | [] => [[c]]
      | hd :: tl => (c :: hd) :: tl

/-- Model of `str.split(sep)` for a single-character separator. -/
def pySplit (s : String) (sep : Char) : List String :=
  (pySplitChars sep s.data).map (fun cs => ⟨cs⟩)

/-- Substring containment, modelling Python's `needle in hay` on `str`. -/
def hasSub (hay needle : List Char) : Bool :=
  needle.isPrefixOf hay ||
    match hay with
    | [] => false
    | _ :: t => hasSub t needle

/-! ### Exact decimal numbers

Python numbers flowing through the exporter are only ever parsed and
stored, never computed with, so they are modelled as exact unnormalized
decimals `mant / 10 ^ exp10`.  This keeps every pipeline computation in
kernel-reducible `ℤ`/`ℕ` arithmetic; `PyNum.toRat` interprets a value as a
rational where a claim speaks about the numeric value itself. -/

/-- An exact decimal number `mant / 10 ^ exp10`. -/
structure PyNum where
  mant : ℤ
  exp10 : ℕ
  deriving DecidableEq, Repr

/-- The rational value of an exact decimal. -/
def PyNum.toRat (v : PyNum) : ℚ :=
  (v.mant : ℚ) / (10 : ℚ) ^ v.exp10

/-- The decimal representing a natural number. -/
def PyNum.ofNat (n : ℕ) : PyNum :=
  ⟨(n : ℤ), 0⟩

/-- Negation of an exact decimal. -/
def PyNum.neg (v : PyNum) : PyNum :=
  ⟨-v.mant, v.exp10⟩

/-- Multiplication of an exact decimal by `10 ^ e`. -/
def PyNum.scaleUp (v : PyNum) (e : ℕ) : PyNum :=
  ⟨v.mant * (10 : ℤ) ^ e, v.exp10⟩

/-- Division of an exact decimal by `10 ^ e`. -/
def PyNum.scaleDown (v : PyNum) (e : ℕ) : PyNum :=
  ⟨v.mant, v.exp10 + e⟩

/-! ### Model of `float(...)` on strings -/

/-- Numeric value of a list of decimal digits. -/
def digitsVal (ds : List Char) : ℕ :=
  ds.foldl (fun a c => 10 * a + (c.toNat - 48)) 0

/-- Mantissa value: integer digits `ip` and fractional digits `fp`. -/
def mantissaVal (ip fp : List Char) : PyNum :=
  ⟨((digitsVal ip * 10 ^ fp.length + digitsVal fp : ℕ) : ℤ), fp.length⟩

/-- Exponent suffix of a float literal: the remaining characters must be a
nonempty digit string (with optional sign handled by the caller). -/
def expDigits (m : PyNum) (neg : Bool) (d : List Char) : Option PyNum :=
  if d ≠ [] ∧ d.all isDigitC then
    some (if neg then m.scaleDown (digitsVal d) else m.scaleUp (digitsVal d))
  else none

/-- Exponent part (`e`/`E`, optional sign, digits) or end of input. -/
def expPart (m : PyNum) : List Char → Option PyNum
  | [] => some m
  | e :: t =>
    if e = 'e' ∨ e = 'E' then
      match t with
      | '+' :: d => expDigits m false d
      | '-' :: d => expDigits m true d
      | d => expDigits m false d
    else none

/-- Unsigned float literal: digits, optional `.` and fraction digits,
optional exponent; at least one mantissa digit is required and the whole
input must be consumed (as `float(...)` requires). -/
def pyFloatUnsigned (cs : List Char) : Option PyNum :=
  let ip := cs.takeWhile isDigitC
  let r1 := cs.dropWhile isDigitC
  match r1 with
  | '.' :: t =>
    let fp := t.takeWhile isDigitC
    let r2 := t.dropWhile isDigitC
    if ip.isEmpty && fp.isEmpty then none
    else expPart (mantissaVal ip fp) r2
  | r =>
    if ip.isEmpty then none else expPart (mantissaVal ip []) r

/-- Model of Python `float(s)` restricted to finite decimal literals
(optional sign, digits, fraction, exponent). -/
def pyFloatChars : List Char → Option PyNum
  | '+' :: t => pyFloatUnsigned t
  | '-' :: t => (pyFloatUnsigned t).map PyNum.neg
  | cs => pyFloatUnsigned cs

/-- Model of Python `float(s)` on strings. -/
def pyFloat (s : String) : Option PyNum :=
  pyFloatChars s.data

/-! ### JSON values and `json.loads` -/

/-- A decoded JSON value, as produced by Python's `json.loads`:
numbers (`int`/`float`, modelled as `ℚ`), strings, booleans, `None`,
lists, and dicts (association lists in insertion order). -/
inductive Json where
  | num (q : PyNum)
  | str (s : String)
  | bool (b : Bool)
  | null
  | arr (xs : List Json)
  | obj (fields : List (String × Json))
  deriving Repr

/-- Whether a JSON value is a dict (`isinstance(payload, dict)`). -/
def Json.isObj : Json → Bool
  | .obj _ => true
  | _ => false

/-- JSON whitespace skipping. -/
def skipWs (cs : List Char) : List Char :=
  cs.dropWhile (fun c => c = ' ' || c = '\t' || c = '\n' || c = '\r')

/-- Value of a hex digit, if any. -/
def hexVal (c : Char) : Option ℕ :=
  if 48 ≤ c.toNat ∧ c.toNat ≤ 57 then some (c.toNat - 48)
  else if 65 ≤ c.toNat ∧ c.toNat ≤ 70 then some (c.toNat - 55)
  else if 97 ≤ c.toNat ∧ c.toNat ≤ 102 then some (c.toNat - 87)
  else none

/-- Parse the remainder of a JSON string literal (after the opening quote):
returns the decoded characters and the input after the closing quote.
Escapes `\" \\ \/ \b \f \n \r \t \uXXXX` are handled (surrogate pairing is
outside the model); raw control characters are rejected as in strict-mode
`json.loads`. -/
def jsonStrChars : List Char → Option (List Char × List Char)
  | [] => none
  | '"' :: rest => some ([], rest)
  | '\\' :: e :: rest =>
    match e with
    | '"' => (jsonStrChars rest).map (fun p => ('"' :: p.1, p.2))
    | '\\' => (jsonStrChars rest).map (fun p => ('\\' :: p.1, p.2))
    | '/' => (jsonStrChars rest).map (fun p => ('/' :: p.1, p.2))
    | 'b' => (jsonStrChars rest).map (fun p => (Char.ofNat 8 :: p.1, p.2))
    | 'f' => (jsonStrChars rest).map (fun p => (Char.ofNat 12 :: p.1, p.2))
    | 'n' => (jsonStrChars rest).map (fun p => ('\n' :: p.1, p.2))
    | 'r' => (jsonStrChars rest).map (fun p => (Char.ofNat 13 :: p.1, p.2))
    | 't' => (jsonStrChars rest).map (fun p => ('\t' :: p.1, p.2))
    | 'u' =>
      match rest with
      | h1 :: h2 :: h3 :: h4 :: rest' =>
        match hexVal h1, hexVal h2, hexVal h3, hexVal h4 with
        | some a, some b, some c, some d =>
          (jsonStrChars rest').map
            (fun p => (Char.ofNat (4096 * a + 256 * b + 16 * c + d) :: p.1, p.2))
        | _, _, _, _ => none
      | _ => none
    | _ => none
  | c :: rest =>
    if c.toNat < 32 then none
    else (jsonStrChars rest).map (fun p => (c :: p.1, p.2))

/-- Optional exponent of a JSON number: returns its sign, its digit value
and the remaining input. -/
def jsonExpFactor : List Char → Option ((Bool × ℕ) × List Char)
  | [] => some ((false, 0), [])
  | e :: t =>
    if e = 'e' ∨ e = 'E' then
      let (neg, t') :=
        match t with
        | '+' :: d => (false, d)
        | '-' :: d => (true, d)
        | d => (false, d)
      let ds := t'.takeWhile isDigitC
      if ds.isEmpty then none
      else some ((neg, digitsVal ds), t'.dropWhile isDigitC)
    else some ((false, 0), e :: t)

/-- Optional fraction of a JSON number: returns the fraction digits and
the remaining input. -/
def jsonFrac : List Char → Option (List Char × List Char)
  | '.' :: t =>
    let fp := t.takeWhile isDigitC
    if fp.isEmpty then none
    else some (fp, t.dropWhile isDigitC)
  | cs => some ([], cs)

/-- A JSON number literal: `-? (0 | [1-9][0-9]*) frac? exp?`. -/
def jsonNumberChars (cs : List Char) : Option (PyNum × List Char) :=
  let (neg, cs1) :=
    match cs with
    | '-' :: t => (true, t)
    | t => (false, t)
  let ipart : Option (List Char × List Char) :=
    match cs1 with
    | '0' :: t => some (['0'], t)
    | c :: _ =>
      if isDigitC c then some (cs1.takeWhile isDigitC, cs1.dropWhile isDigitC)
      else none
    | [] => none
  match ipart with
  | none => none
  | some (ip, r1) =>
    match jsonFrac r1 with
    | none => none
    | some (fp, r2) =>
      match jsonExpFactor r2 with
      | none => none
      | some ((eneg, ev), r3) =>
        let m := mantissaVal ip fp
        let m := if eneg then m.scaleDown ev else m.scaleUp ev
        some ((if neg then m.neg else m), r3)

mutual

/-- Recursive-descent JSON value parser (fuel-indexed). -/
def jsonValue : ℕ → List Char → Option (Json × List Char)
  | 0, _ => none
  | fuel + 1, cs =>
    match skipWs cs with
    | '{' :: t =>
      (match skipWs t with
      | '}' :: r => some (.obj [], r)
      | t' => jsonMembers fuel t' [])
    | '[' :: t =>
      (match skipWs t with
      | ']' :: r => some (.arr [], r)
      | t' => jsonElements fuel t' [])
    | '"' :: t => (jsonStrChars t).map (fun p => (.str ⟨p.1⟩, p.2))
    | 't' :: 'r' :: 'u' :: 'e' :: r => some (.bool true, r)
    | 'f' :: 'a' :: 'l' :: 's' :: 'e' :: r => some (.bool false, r)
    | 'n' :: 'u' :: 'l' :: 'l' :: r => some (.null, r)
    | cs' => (jsonNumberChars cs').map (fun p => (.num p.1, p.2))

/-- Members of a JSON object after the opening brace (fuel-indexed). -/
def jsonMembers : ℕ → List Char → List (String × Json) → Option (Json × List Char)
  | 0, _, _ => none
  | fuel + 1, cs, acc =>
    match cs with
    | '"' :: t =>
      match jsonStrChars t with
      | none => none
      | some (k, r1) =>
        match skipWs r1 with
        | ':' :: r2 =>
          match jsonValue fuel r2 with
          | none => none
          | some (v, r3) =>
            match skipWs r3 with
            | ',' :: r4 => jsonMembers fuel (skipWs r4) (acc ++ [(⟨k⟩, v)])
            | '}' :: r4 => some (.obj (acc ++ [(⟨k⟩, v)]), r4)
            | _ => none
        | _ => none
    | _ => none

/-- Elements of a JSON array after the opening bracket (fuel-indexed). -/
def jsonElements : ℕ → List Char → List Json → Option (Json × List Char)
  | 0, _, _ => none
  | fuel + 1, cs, acc =>
    match jsonValue fuel cs with
    | none => none
    | some (v, r1) =>
      match skipWs r1 with
      | ',' :: r2 => jsonElements fuel r2 (acc ++ [v])
      | ']' :: r2 => some (.arr (acc ++ [v]), r2)
      | _ => none

end

/-- Model of `json.loads` on text: parse one value, then only whitespace
may remain.  `none` models `json.JSONDecodeError`. -/
def json_loads (s : String) : Option Json :=
  match jsonValue (s.data.length + 16) s.data with
  | some (v, rest) => if skipWs rest = [] then some v else none
  | none => none

/-! ### Configuration (defaults of the environment-variable surface) -/

/-- `PREFIX = os.getenv("PROMETHEUS_PREFIX", "mqtt_")`, default value. -/
def PREFIX : String := "mqtt_"

/-- `IGNORED_TOPICS = os.getenv("MQTT_IGNORED_TOPICS", "").split(",")`,
default value: splitting the empty string on `","` yields `[""]`. -/
def IGNORED_TOPICS : List String := pySplit "" ','

/-- `STATE_VALUES`: the fixed state-word table. -/
def STATE_VALUES : List (String × PyNum) :=
  [("ON", ⟨1, 0⟩), ("OFF", ⟨0, 0⟩), ("TRUE", ⟨1, 0⟩), ("FALSE", ⟨0, 0⟩)]

/-! ### `_parse_metric`: the scalar coercer -/

/-- Errors raised by the source that no enclosing handler catches. -/
inductive PyError where
  | attributeError
  | unicodeDecodeError
  deriving DecidableEq, Repr

/-- Embedding of `_parse_metric(data)`.

Numbers pass through; Python `bool` is an `int` subclass, so `True`/`False`
pass the `isinstance(data, (int, float))` test and are returned as `1`/`0`;
strings are upper-cased, looked up in `STATE_VALUES`, then fed to
`float(...)`; everything else raises `ValueError` (modelled as `.error`,
carrying the offending value: for strings, `float` raises on the
upper-cased string the source hands it).  The `bytes` branch of the source
is unreachable here because `json.loads` never produces `bytes`. -/
def parse_metric : Json → Except Json PyNum
  | .num q => .ok q
  | .bool b => .ok (if b then ⟨1, 0⟩ else ⟨0, 0⟩)
  | .str s =>
    match lookupA (pyUpper s) STATE_VALUES with
    | some v => .ok v
    | none =>
      match pyFloat (pyUpper s) with
      | some q => .ok q
      | none => .error (.str (pyUpper s))
  | v => .error v

/-! ### Metric name resolution (the sanitization in `_parse_metrics`) -/

/-- The suffix of `cs` after its first `')'` (used by the model of
`re.sub(r"\((.*?)\)", "", s)`). -/
def afterClose (cs : List Char) : List Char :=
  (cs.dropWhile (fun c => c ≠ ')')).tail

/-- Fuel-indexed worker for `stripParens`; the recursion consumes at least
one character per step, so any fuel of at least the input length gives the
fuel-free semantics (`stripParensF_ge`). -/
def stripParensF : ℕ → List Char → List Char
  | 0, cs => cs
  | fuel + 1, cs =>
    match cs with
    | [] => []
    | c :: rest =>
      if c = '(' ∧ ')' ∈ rest then stripParensF fuel (afterClose rest)
      else c :: stripParensF fuel rest

/-- Model of `re.sub(r"\((.*?)\)", "", s)`: scanning left to right, each
`'('` that is followed by some `')'` is deleted together with everything up
to and including the first such `')'`; a `'('` with no later `')'` does not
match and is kept.  (The regex `.` does not match newlines; none of the
strings reasoned about below contain newlines.) -/
def stripParens (cs : List Char) : List Char :=
  stripParensF cs.length cs

/-- Embedding of the name sanitization in `_parse_metrics`:
`f"{PREFIX}{prefix}{metric}".replace(".", "").replace(" ", "_")` followed
by `re.sub(r"\((.*?)\)", "", ...)`. -/
def promMetricName (pfx metric : String) : String :=
  ⟨stripParens
    (((PREFIX ++ pfx ++ metric).data.filter (fun c => c ≠ '.')).map
      (fun c => if c = ' ' then '_' else c))⟩

/-- Whether position `i` of `cs` lies inside a parenthesized substring:
some `'('` occurs at or before `i` and some `')'` at or after it (the
parentheses themselves count as inside).  This formalizes the sanitization
region of the specification sentence behind claim C6. -/
def insideParens (cs : List Char) (i : ℕ) : Bool :=
  (cs.take (i + 1)).contains '(' && (cs.drop i).contains ')'

/-- The characters of `s` not affected by sanitization in the sense of the
specification: not `'.'`, not `' '`, and not inside a parenthesized
substring.  Two field paths "differ in at least one character not affected
by sanitization" exactly when their residues differ. -/
def unaffectedResidue (s : String) : List Char :=
  (s.data.enum.filter
    (fun ic => !(ic.2 == '.' || ic.2 == ' ' || insideParens s.data ic.1))).map Prod.snd

/-! ### The gauge registry and message counter -/

/-- The process-wide `prom_metrics` dict: metric name → gauge, where a
gauge is its map from label value (`topic`) to current value. -/
abbrev GaugeMap : Type := List (String × List (String × PyNum))

/-- The `prom_msg_counter` children: label value (`topic`) → count. -/
abbrev CounterMap : Type := List (String × ℕ)

/-- Embedding of the gauge update in `_parse_metrics`: create the gauge if
`prom_metrics.get(name)` is falsy (a `Gauge` object is always truthy, so
this means: if absent), then `labels(topic).set(value)` — the labelled
child is created on first use and its value replaced. -/
def setGauge (m : GaugeMap) (name topic : String) (q : PyNum) : GaugeMap :=
  let m' := if lookupA name m = none then setA name [] m else m
  setA name (setA topic q ((lookupA name m').getD [])) m'

/-- Embedding of `prom_msg_counter.labels(**{TOPIC_LABEL: topic}).inc()`:
the labelled child starts at `0` and is incremented. -/
def incCounter (c : CounterMap) (topic : String) : CounterMap :=
  setA topic ((lookupA topic c).getD 0 + 1) c

/-- The observable value of gauge `name` for label `topic`. -/
def gaugeVal (m : GaugeMap) (name topic : String) : Option PyNum :=
  (lookupA name m).bind (fun labels => lookupA topic labels)

/-! ### `_parse_metrics`: the recursive metric extractor -/

mutual

/-- Embedding of `_parse_metrics(data, topic, prefix="")` acting on the
`prom_metrics` registry (the only state the source mutates here): the
`for metric, value in data.items()` loop, each iteration handled by
`parse_metrics_value`. -/
def parse_metrics : List (String × Json) → String → String → GaugeMap → GaugeMap
  | [], _, _, m => m
  | (metric, value) :: rest, topic, pfx, m =>
    parse_metrics rest topic pfx (parse_metrics_value metric value topic pfx m)

/-- One iteration of the `_parse_metrics` loop body: dict values recurse
with the prefix extended by `metric + "_"`; other values go through
`_parse_metric`, a `ValueError` skips the field, and a success
creates/updates the gauge named by `promMetricName`. -/
def parse_metrics_value (metric : String) (value : Json) (topic pfx : String)
    (m : GaugeMap) : GaugeMap :=
  match value with
  | .obj inner => parse_metrics inner topic (pfx ++ metric ++ "_") m
  | v =>
    match parse_metric v with
    | .error _ => m
    | .ok q => setGauge m (promMetricName pfx metric) topic q

end

/-! ### `_normalize_shelly_msg` and `_parse_message` -/

/-- An MQTT payload as delivered by the transport: `bytes` that decode as
UTF-8 to some text, or bytes that are not valid UTF-8. -/
inductive PyBytes where
  | utf8 (s : String)
  | invalid
  deriving DecidableEq, Repr

/-- The payload variable inside `_parse_message` before `json.loads`:
either still the raw bytes, or the `str` produced by
`json.dumps({info[-1]: payload.decode()})` on the Shelly path (carried as
the dict it serializes; `json.dumps` followed by `json.loads` is the
identity on a string-valued dict). -/
inductive NormPayload where
  | raw (b : PyBytes)
  | dumpedDict (d : List (String × String))
  deriving DecidableEq, Repr

/-- Embedding of `_normalize_shelly_msg(topic, payload)`.  `info[1]`
raises `IndexError` when the topic has fewer than two `/`-segments, which
the source catches with `pass` (topic and payload unchanged).  With two or
more segments, the topic becomes the first two segments joined by `/` and
the payload becomes the serialized dict `{info[-1]: payload.decode()}`;
`payload.decode()` raises `UnicodeDecodeError` on undecodable bytes, and
no handler in the source catches it there. -/
def normalize_shelly_msg (topic : String) (payload : PyBytes) :
    Except PyError (String × NormPayload) :=
  let info := pySplit topic '/'
  if 2 ≤ info.length then
    match payload with
    | .invalid => .error .unicodeDecodeError
    | .utf8 s =>
      .ok ((info.getD 0 "") ++ "/" ++ (info.getD 1 ""), .dumpedDict [(info.getLastD "", s)])
  else .ok (topic, .raw payload)

/-- The result of `json.loads(payload)` inside `_parse_message`, where
both `json.JSONDecodeError` and `UnicodeDecodeError` are caught (`none`).
On the Shelly path the payload is the `json.dumps` output of a
string-valued dict, and loading it back yields that dict. -/
def loadsNorm : NormPayload → Option Json
  | .raw .invalid => none
  | .raw (.utf8 s) => json_loads s
  | .dumpedDict d => some (.obj (d.map (fun kv => (kv.1, .str kv.2))))

/-- The value `_parse_message` hands to its caller in place of the payload:
a dict, or — on the non-dict branch — the `str` produced by
`json.dumps({info[-1]: payload})` (carried as the dict it serializes;
`json.dumps` of a one-entry dict is never the empty string, so this value
is always truthy). -/
inductive ParsedPayload where
  | dict (fields : List (String × Json))
  | jsonText (d : List (String × Json))
  deriving Repr

/-- Embedding of `_parse_message(topic, payload)`.  Shelly-marked topics
(`"shellies" in topic`, substring test) are normalized first; then the
topic's `/` are replaced by `_`; then `json.loads`, whose decode failures
yield `(None, None)` (modelled `none`).  A non-dict decode is wrapped as
`{topic.split("/")[-1]: payload}` — note the split happens after the
`/`→`_` replacement — and returned serialized (`jsonText`); a dict is
returned as is. -/
def parse_message (topic : String) (payload : PyBytes) :
    Except PyError (Option (String × ParsedPayload)) :=
  match
    (if hasSub topic.data "shellies".data then normalize_shelly_msg topic payload
     else .ok (topic, .raw payload)) with
  | .error e => .error e
  | .ok (t0, pl) =>
    let t := pyReplaceChar '/' '_' t0
    match loadsNorm pl with
    | none => .ok none
    | some (.obj fields) => .ok (some (t, .dict fields))
    | some v =>
      let info := pySplit t '/'
      .ok (some (t, .jsonText [(info.getLastD "", v)]))

/-! ### `expose_metrics`: the ingestion pipeline -/

/-- The observable state of the metrics collaborator: the gauge registry
and the per-topic message counter children. -/
structure MetricsState where
  prom_metrics : GaugeMap
  prom_msg_counter : CounterMap
  deriving DecidableEq, Repr

/-- The empty initial state. -/
def initState : MetricsState :=
  ⟨[], []⟩

/-- The body of `expose_metrics` after the ignore check: parse the
message; `if not topic or not payload: return` (`None` from a failed
decode, the empty topic string, and the empty dict are all falsy; the
`jsonText` string is `json.dumps` output and always truthy); then
`_parse_metrics(payload, topic)` — which, handed the `str` of the non-dict
branch, raises `AttributeError` at `payload.items()` — and finally the
counter increment. -/
def process_message (st : MetricsState) (topic : String) (payload : PyBytes) :
    Except PyError MetricsState :=
  match parse_message topic payload with
  | .error e => .error e
  | .ok none => .ok st
  | .ok (some (t, pl)) =>
    if t = "" then .ok st
    else
      match pl with
      | .dict [] => .ok st
      | .dict fields =>
        .ok ⟨parse_metrics fields t "" st.prom_metrics, incCounter st.prom_msg_counter t⟩
      | .jsonText _ => .error .attributeError

/-- Embedding of `expose_metrics(client, userdata, msg)`: drop the message
when its topic is in `IGNORED_TOPICS` (exact membership), otherwise run
the body.  The ignore list is a parameter so that claims about arbitrary
configurations can be stated; the source reads it once from the
environment when the module loads (`IGNORED_TOPICS` above is the
default). -/
def expose_metrics (ignored : List String) (st : MetricsState) (topic : String)
    (payload : PyBytes) : Except PyError MetricsState :=
  if topic ∈ ignored then .ok st
  else process_message st topic payload

/-! ## Supporting lemmas -/

/-! ### Fuel adequacy for `stripParens` -/

theorem length_dropWhile_le {α : Type} (p : α → Bool) (l : List α) :
    (l.dropWhile p).length ≤ l.length := by
  induction l with
  | nil => simp [List.dropWhile]
  | cons hd tl ih =>
    simp only [List.dropWhile]
    split
    · exact Nat.le_succ_of_le ih
    · exact Nat.le_refl _

theorem afterClose_length_le (cs : List Char) : (afterClose cs).length ≤ cs.length := by
  have h1 : (cs.dropWhile (fun c => c ≠ ')')).length ≤ cs.length :=
    length_dropWhile_le _ cs
  have h2 : (cs.dropWhile (fun c => c ≠ ')')).tail.length ≤
      (cs.dropWhile (fun c => c ≠ ')')).length := by
    simp [List.length_tail]
  exact le_trans h2 h1

/-- Any sufficient fuel computes the same `stripParensF` result. -/
theorem stripParensF_ge (fuel fuel' : ℕ) (cs : List Char) (h : cs.length ≤ fuel)
    (h' : cs.length ≤ fuel') : stripParensF fuel cs = stripParensF fuel' cs := by
  induction fuel using Nat.strong_induction_on generalizing cs fuel' with
  | _ fuel ih =>
    match fuel, cs with
    | 0, cs =>
      have hnil : cs = [] := List.eq_nil_of_length_eq_zero (Nat.le_zero.mp h)
      subst hnil
      cases fuel' <;> rfl
    | fuel + 1, [] =>
      match fuel' with
      | 0 => rfl
      | fuel' + 1 => rfl
    | fuel + 1, c :: rest =>
      match fuel' with
      | 0 => exact absurd h' (by simp)
      | fuel' + 1 =>
        simp only [stripParensF]
        split
        · rename_i hc
          have hlen := afterClose_length_le rest
          simp only [List.length_cons] at h h'
          exact ih fuel (Nat.lt_succ_self _) fuel' (afterClose rest) (by omega) (by omega)
        · simp only [List.length_cons] at h h'
          rw [ih fuel (Nat.lt_succ_self _) fuel' rest (by omega) (by omega)]

/-- `stripParens` keeps a list containing no `'('` unchanged. -/
theorem stripParens_of_no_open (cs : List Char) (h : '(' ∉ cs) : stripParens cs = cs := by
  unfold stripParens
  induction cs with
  | nil => rfl
  | cons c rest ih =>
    have hc : c ≠ '(' := fun he => h (he ▸ List.mem_cons_self c rest)
    have hr : '(' ∉ rest := fun hm => h (List.mem_cons_of_mem c hm)
    simp only [List.length_cons, stripParensF]
    rw [if_neg (fun hand => hc hand.1)]
    rw [ih hr]

/-! ### Association map lemmas -/

theorem lookupA_setA_self {α : Type} (k : String) (v : α) (m : List (String × α)) :
    lookupA k (setA k v m) = some v := by
  induction m with
  | nil => simp [setA, lookupA]
  | cons hd tl ih =>
    obtain ⟨k', v'⟩ := hd
    by_cases h : k' = k
    · simp [setA, lookupA, h]
    · simp [setA, lookupA, h, ih]

theorem lookupA_setA_ne {α : Type} (k k' : String) (v : α) (m : List (String × α))
    (h : k' ≠ k) : lookupA k' (setA k v m) = lookupA k' m := by
  induction m with
  | nil =>
    have : k ≠ k' := fun he => h he.symm
    simp [setA, lookupA, this]
  | cons hd tl ih =>
    obtain ⟨k₀, v₀⟩ := hd
    by_cases h0 : k₀ = k
    · subst h0
      have : k₀ ≠ k' := fun he => h he.symm
      simp [setA, lookupA, this]
    · simp only [setA, if_neg h0, lookupA]
      split
      · rfl
      · exact ih

theorem setA_setA {α : Type} (k : String) (v w : α) (m : List (String × α)) :
    setA k v (setA k w m) = setA k v m := by
  induction m with
  | nil => simp [setA]
  | cons hd tl ih =>
    obtain ⟨k₀, v₀⟩ := hd
    by_cases h0 : k₀ = k
    · simp [setA, h0]
    · simp [setA, h0, ih]

theorem mem_keysA_setA {α : Type} (x k : String) (v : α) (m : List (String × α)) :
    x ∈ keysA (setA k v m) ↔ x ∈ keysA m ∨ x = k := by
  induction m with
  | nil => simp [setA, keysA]
  | cons hd tl ih =>
    obtain ⟨k₀, v₀⟩ := hd
    by_cases h0 : k₀ = k
    · subst h0
      simp only [keysA] at *
      simp [setA]
      tauto
    · simp only [keysA] at *
      simp only [setA, if_neg h0, List.map_cons, List.mem_cons]
      rw [ih]
      tauto

theorem keysA_setA_of_mem {α : Type} (k : String) (v : α) (m : List (String × α))
    (h : k ∈ keysA m) : keysA (setA k v m) = keysA m := by
  simp only [keysA] at *
  induction m with
  | nil => simp at h
  | cons hd tl ih =>
    obtain ⟨k₀, v₀⟩ := hd
    by_cases h0 : k₀ = k
    · simp [setA, h0]
    · simp only [List.map_cons, List.mem_cons] at h
      rcases h with h | h
      · exact absurd h.symm h0
      · simp [setA, h0, ih h]

theorem keysA_setA_of_not_mem {α : Type} (k : String) (v : α) (m : List (String × α))
    (h : k ∉ keysA m) : keysA (setA k v m) = keysA m ++ [k] := by
  simp only [keysA] at *
  induction m with
  | nil => simp [setA]
  | cons hd tl ih =>
    obtain ⟨k₀, v₀⟩ := hd
    simp only [List.map_cons, List.mem_cons] at h
    push_neg at h
    have h1 : k₀ ≠ k := fun he => h.1 he.symm
    simp [setA, h1, ih h.2]

theorem nodup_keysA_setA {α : Type} (k : String) (v : α) (m : List (String × α))
    (h : (keysA m).Nodup) : (keysA (setA k v m)).Nodup := by
  by_cases hm : k ∈ keysA m
  · rw [keysA_setA_of_mem k v m hm]
    exact h
  · rw [keysA_setA_of_not_mem k v m hm]
    simp only [List.nodup_append, List.nodup_cons, List.nodup_nil]
    refine ⟨h, ⟨by simp, by simp⟩, ?_⟩
    intro x hx
    simp only [List.mem_singleton]
    intro he
    exact hm (he ▸ hx)

theorem lookupA_eq_none_iff {α : Type} (k : String) (m : List (String × α)) :
    lookupA k m = none ↔ k ∉ keysA m := by
  induction m with
  | nil => simp [lookupA, keysA]
  | cons hd tl ih =>
    obtain ⟨k₀, v₀⟩ := hd
    by_cases h0 : k₀ = k
    · simp [lookupA, h0, keysA]
    · simp only [lookupA, if_neg h0, keysA, List.map_cons, List.mem_cons]
      rw [ih]
      constructor
      · rintro h (he | hm)
        · exact h0 he.symm
        · exact h hm
      · intro h hm
        exact h (Or.inr hm)

/-! ### Gauge registry lemmas -/

theorem setGauge_idem (m : GaugeMap) (n t : String) (q : PyNum) :
    setGauge (setGauge m n t q) n t q = setGauge m n t q := by
  unfold setGauge
  generalize (if lookupA n m = none then setA n ([] : List (String × PyNum)) m else m) = m'
  rw [lookupA_setA_self]
  simp only [Option.getD_some, reduceCtorEq, if_false]
  rw [lookupA_setA_self]
  simp only [Option.getD_some]
  rw [setA_setA t q q ((lookupA n m').getD [])]
  exact setA_setA n _ _ m'

theorem gaugeVal_setGauge_self (m : GaugeMap) (n t : String) (q : PyNum) :
    gaugeVal (setGauge m n t q) n t = some q := by
  unfold gaugeVal setGauge
  rw [lookupA_setA_self]
  exact lookupA_setA_self t q _

theorem mem_keysA_setGauge (x : String) (m : GaugeMap) (n t : String) (q : PyNum) :
    x ∈ keysA (setGauge m n t q) ↔ x ∈ keysA m ∨ x = n := by
  unfold setGauge
  split
  · rw [mem_keysA_setA, mem_keysA_setA]
    tauto
  · rw [mem_keysA_setA]

theorem nodup_keysA_setGauge (m : GaugeMap) (n t : String) (q : PyNum)
    (h : (keysA m).Nodup) : (keysA (setGauge m n t q)).Nodup := by
  unfold setGauge
  split
  · exact nodup_keysA_setA _ _ _ (nodup_keysA_setA _ _ _ h)
  · exact nodup_keysA_setA _ _ _ h

theorem count_keysA_setGauge (m : GaugeMap) (n t : String) (q : PyNum)
    (h : (keysA m).Nodup) : (keysA (setGauge m n t q)).count n = 1 := by
  have hmem : n ∈ keysA (setGauge m n t q) := (mem_keysA_setGauge n m n t q).mpr (Or.inr rfl)
  exact List.count_eq_one_of_mem (nodup_keysA_setGauge m n t q h) hmem

/-! ### Counter lemmas -/

theorem lookupA_incCounter_self (c : CounterMap) (t : String) :
    lookupA t (incCounter c t) = some ((lookupA t c).getD 0 + 1) :=
  lookupA_setA_self t _ c

theorem lookupA_incCounter_ne (c : CounterMap) (t t' : String) (h : t' ≠ t) :
    lookupA t' (incCounter c t) = lookupA t' c :=
  lookupA_setA_ne t t' _ c h

/-! ### Extractor structure lemmas -/

theorem parse_metrics_append (l1 l2 : List (String × Json)) (t p : String) (m : GaugeMap) :
    parse_metrics (l1 ++ l2) t p m = parse_metrics l2 t p (parse_metrics l1 t p m) := by
  induction l1 generalizing m with
  | nil => rfl
  | cons hd tl ih =>
    obtain ⟨k, v⟩ := hd
    simp only [List.cons_append, parse_metrics]
    exact ih _

theorem parse_metrics_value_error (k : String) (v : Json) (t p : String) (m : GaugeMap)
    (e : Json) (hobj : v.isObj = false) (hv : parse_metric v = .error e) :
    parse_metrics_value k v t p m = m := by
  cases v with
  | obj fields => simp [Json.isObj] at hobj
  | num q => simp [parse_metric] at hv
  | bool b => simp [parse_metric] at hv
  | str s =>
    simp only [parse_metrics_value]
    rw [hv]
  | null =>
    simp only [parse_metrics_value]
    rw [hv]
  | arr xs =>
    simp only [parse_metrics_value]
    rw [hv]

theorem parse_metrics_value_ok (k : String) (v : Json) (t p : String) (m : GaugeMap)
    (q : PyNum) (hv : parse_metric v = .ok q) :
    parse_metrics_value k v t p m = setGauge m (promMetricName p k) t q := by
  cases v with
  | obj fields => simp [parse_metric] at hv
  | num q' =>
    simp only [parse_metric, Except.ok.injEq] at hv
    subst hv
    rfl
  | bool b =>
    simp only [parse_metric, Except.ok.injEq] at hv
    subst hv
    rfl
  | str s =>
    simp only [parse_metrics_value]
    rw [hv]
  | null => simp [parse_metric] at hv
  | arr xs => simp [parse_metric] at hv

/-- A field whose value fails coercion (and is not a dict) contributes
nothing to the registry. -/
theorem mem_keysA_pm_value_scalar (k : String) (v : Json) (t p : String) (m : GaugeMap)
    (x : String) (hobj : v.isObj = false) (hx : x ∈ keysA m) :
    x ∈ keysA (parse_metrics_value k v t p m) := by
  cases hv : parse_metric v with
  | error e =>
    rw [parse_metrics_value_error k v t p m e hobj hv]
    exact hx
  | ok q =>
    rw [parse_metrics_value_ok k v t p m q hv]
    exact (mem_keysA_setGauge x m _ t q).mpr (Or.inl hx)

mutual

/-- Gauges present in the registry survive any extractor run: entries are
never removed. -/
theorem mem_keysA_parse_metrics (data : List (String × Json)) (t p : String)
    (m : GaugeMap) (x : String) (hx : x ∈ keysA m) :
    x ∈ keysA (parse_metrics data t p m) :=
  match data with
  | [] => hx
  | (metric, value) :: rest =>
    mem_keysA_parse_metrics rest t p _ x
      (mem_keysA_parse_metrics_value metric value t p m x hx)

/-- One loop iteration never removes registry entries. -/
theorem mem_keysA_parse_metrics_value (k : String) (v : Json) (t p : String)
    (m : GaugeMap) (x : String) (hx : x ∈ keysA m) :
    x ∈ keysA (parse_metrics_value k v t p m) :=
  match v with
  | .obj inner => mem_keysA_parse_metrics inner t (p ++ k ++ "_") m x hx
  | .num q => mem_keysA_pm_value_scalar k (.num q) t p m x rfl hx
  | .str s => mem_keysA_pm_value_scalar k (.str s) t p m x rfl hx
  | .bool b => mem_keysA_pm_value_scalar k (.bool b) t p m x rfl hx
  | .null => mem_keysA_pm_value_scalar k .null t p m x rfl hx
  | .arr xs => mem_keysA_pm_value_scalar k (.arr xs) t p m x rfl hx

end

/-- A non-dict field preserves key uniqueness of the registry. -/
theorem nodup_keysA_pm_value_scalar (k : String) (v : Json) (t p : String) (m : GaugeMap)
    (hobj : v.isObj = false) (h : (keysA m).Nodup) :
    (keysA (parse_metrics_value k v t p m)).Nodup := by
  cases hv : parse_metric v with
  | error e =>
    rw [parse_metrics_value_error k v t p m e hobj hv]
    exact h
  | ok q =>
    rw [parse_metrics_value_ok k v t p m q hv]
    exact nodup_keysA_setGauge m _ t q h

mutual

/-- The extractor preserves key uniqueness of the registry: a metric
identifier is created at most once. -/
theorem nodup_keysA_parse_metrics (data : List (String × Json)) (t p : String)
    (m : GaugeMap) (h : (keysA m).Nodup) : (keysA (parse_metrics data t p m)).Nodup :=
  match data with
  | [] => h
  | (metric, value) :: rest =>
    nodup_keysA_parse_metrics rest t p _
      (nodup_keysA_parse_metrics_value metric value t p m h)

/-- One loop iteration preserves key uniqueness of the registry. -/
theorem nodup_keysA_parse_metrics_value (k : String) (v : Json) (t p : String)
    (m : GaugeMap) (h : (keysA m).Nodup) :
    (keysA (parse_metrics_value k v t p m)).Nodup :=
  match v with
  | .obj inner => nodup_keysA_parse_metrics inner t (p ++ k ++ "_") m h
  | .num q => nodup_keysA_pm_value_scalar k (.num q) t p m rfl h
  | .str s => nodup_keysA_pm_value_scalar k (.str s) t p m rfl h
  | .bool b => nodup_keysA_pm_value_scalar k (.bool b) t p m rfl h
  | .null => nodup_keysA_pm_value_scalar k .null t p m rfl h
  | .arr xs => nodup_keysA_pm_value_scalar k (.arr xs) t p m rfl h

end

/-! ### Characters under the `str.upper` model -/

theorem charOfNatAux_toNat (n : ℕ) (h : n.isValidChar) : (Char.ofNatAux n h).toNat = n := by
  simp [Char.ofNatAux, Char.toNat, UInt32.toNat, BitVec.toNat_ofNatLt]

theorem char_eq_iff_toNat (c d : Char) : c = d ↔ c.toNat = d.toNat :=
  ⟨fun h => by rw [h], fun h => Char.ext (UInt32.ext h)⟩

theorem charOfNat_toNat (n : ℕ) (h : n.isValidChar) : (Char.ofNat n).toNat = n := by
  rw [Char.ofNat, dif_pos h]
  exact charOfNatAux_toNat n h

theorem pyUpperChar_toNat (c : Char) :
    (pyUpperChar c).toNat = if 97 ≤ c.toNat ∧ c.toNat ≤ 122 then c.toNat - 32 else c.toNat := by
  unfold pyUpperChar
  split
  · rename_i h
    exact charOfNat_toNat _ (Or.inl (by omega))
  · rfl

theorem isDigitC_pyUpperChar (c : Char) : isDigitC (pyUpperChar c) = isDigitC c := by
  unfold isDigitC
  rw [decide_eq_decide, pyUpperChar_toNat]
  split <;> omega

/-- `pyUpperChar` fixes every character below `'A'` (digits, signs, dots,
parentheses), in the sense that it maps nothing new onto them either. -/
theorem pyUpperChar_eq_low (c d : Char) (hd : d.toNat < 65) :
    pyUpperChar c = d ↔ c = d := by
  rw [char_eq_iff_toNat, char_eq_iff_toNat c d, pyUpperChar_toNat]
  split <;> omega

/-- Nothing maps onto a lowercase character under `pyUpperChar`. -/
theorem pyUpperChar_ne_lower (c d : Char) (hd : 97 ≤ d.toNat ∧ d.toNat ≤ 122) :
    pyUpperChar c ≠ d := by
  intro hc
  have h := congrArg Char.toNat hc
  rw [pyUpperChar_toNat] at h
  split at h <;> omega

theorem pyUpperChar_eq_upperE (c : Char) : pyUpperChar c = 'E' ↔ (c = 'e' ∨ c = 'E') := by
  rw [char_eq_iff_toNat, char_eq_iff_toNat c 'E', char_eq_iff_toNat c 'e', pyUpperChar_toNat]
  rw [show ('E' : Char).toNat = 69 from rfl, show ('e' : Char).toNat = 101 from rfl]
  split <;> omega

theorem pyUpperChar_of_digit (c : Char) (h : isDigitC c = true) : pyUpperChar c = c := by
  unfold isDigitC at h
  rw [decide_eq_true_eq] at h
  unfold pyUpperChar
  rw [if_neg (by omega)]

/-! ### `float(...)` is unchanged by upper-casing its input -/

theorem takeWhile_isDigitC_map_upper (cs : List Char) :
    (cs.map pyUpperChar).takeWhile isDigitC = cs.takeWhile isDigitC := by
  rw [List.takeWhile_map]
  have hp : isDigitC ∘ pyUpperChar = isDigitC := funext isDigitC_pyUpperChar
  rw [hp]
  have : ∀ a ∈ cs.takeWhile isDigitC, pyUpperChar a = id a :=
    fun a ha => pyUpperChar_of_digit a (List.mem_takeWhile_imp ha)
  rw [List.map_congr_left this, List.map_id]

theorem dropWhile_isDigitC_map_upper (cs : List Char) :
    (cs.map pyUpperChar).dropWhile isDigitC = (cs.dropWhile isDigitC).map pyUpperChar := by
  rw [List.dropWhile_map]
  have hp : isDigitC ∘ pyUpperChar = isDigitC := funext isDigitC_pyUpperChar
  rw [hp]

theorem digits_map_upper (d : List Char) (h : d.all isDigitC = true) :
    d.map pyUpperChar = d := by
  have : ∀ a ∈ d, pyUpperChar a = id a :=
    fun a ha => pyUpperChar_of_digit a (List.all_eq_true.mp h a ha)
  rw [List.map_congr_left this, List.map_id]

theorem expDigits_map_upper (m : PyNum) (neg : Bool) (d : List Char) :
    expDigits m neg (d.map pyUpperChar) = expDigits m neg d := by
  by_cases h : d.all isDigitC = true
  · rw [digits_map_upper d h]
  · unfold expDigits
    rw [if_neg, if_neg]
    · intro hc
      exact h hc.2
    · intro hc
      rw [List.all_map] at hc
      have hp : isDigitC ∘ pyUpperChar = isDigitC := funext isDigitC_pyUpperChar
      rw [hp] at hc
      exact h hc.2

theorem expPart_map_upper (m : PyNum) (cs : List Char) :
    expPart m (cs.map pyUpperChar) = expPart m cs := by
  cases cs with
  | nil => rfl
  | cons e t =>
    simp only [List.map_cons, expPart]
    have he : (pyUpperChar e = 'e' ∨ pyUpperChar e = 'E') ↔ (e = 'e' ∨ e = 'E') := by
      constructor
      · rintro (h | h)
        · exact absurd h (pyUpperChar_ne_lower e 'e' (by decide))
        · exact (pyUpperChar_eq_upperE e).mp h
      · intro h
        exact Or.inr ((pyUpperChar_eq_upperE e).mpr h)
    by_cases hcond : e = 'e' ∨ e = 'E'
    · rw [if_pos (he.mpr hcond), if_pos hcond]
      cases t with
      | nil => rfl
      | cons c d =>
        simp only [List.map_cons]
        by_cases hplus : c = '+'
        · subst hplus
          have : pyUpperChar '+' = '+' := rfl
          rw [this]
          exact expDigits_map_upper m false d
        · by_cases hminus : c = '-'
          · subst hminus
            have : pyUpperChar '-' = '-' := rfl
            rw [this]
            exact expDigits_map_upper m true d
          · have hup : pyUpperChar c ≠ '+' :=
              fun hc => hplus ((pyUpperChar_eq_low c '+' (by decide)).mp hc)
            have hum : pyUpperChar c ≠ '-' :=
              fun hc => hminus ((pyUpperChar_eq_low c '-' (by decide)).mp hc)
            have h1 : (match pyUpperChar c :: d.map pyUpperChar with
                | '+' :: d => expDigits m false d
                | '-' :: d => expDigits m true d
                | d => expDigits m false d) =
                expDigits m false (pyUpperChar c :: d.map pyUpperChar) := by
              cases hcc : pyUpperChar c
              simp_all
            have h2 : (match c :: d with
                | '+' :: d => expDigits m false d
                | '-' :: d => expDigits m true d
                | d => expDigits m false d) = expDigits m false (c :: d) := by
              cases hcc : c
              simp_all
            rw [h1, h2]
            have : pyUpperChar c :: d.map pyUpperChar = (c :: d).map pyUpperChar := rfl
            rw [this]
            exact expDigits_map_upper m false (c :: d)
    · rw [if_neg (fun hx => hcond (he.mp hx)), if_neg hcond]

theorem pyFloatUnsigned_nil (cs : List Char) (h : cs.dropWhile isDigitC = []) :
    pyFloatUnsigned cs =
      (if (cs.takeWhile isDigitC).isEmpty then none
       else expPart (mantissaVal (cs.takeWhile isDigitC) []) []) := by
  simp only [pyFloatUnsigned, h]

theorem pyFloatUnsigned_dot (cs t : List Char) (h : cs.dropWhile isDigitC = '.' :: t) :
    pyFloatUnsigned cs =
      (if (cs.takeWhile isDigitC).isEmpty && (t.takeWhile isDigitC).isEmpty then none
       else expPart (mantissaVal (cs.takeWhile isDigitC) (t.takeWhile isDigitC))
         (t.dropWhile isDigitC)) := by
  simp only [pyFloatUnsigned, h]

theorem pyFloatUnsigned_nodot (cs : List Char) (c : Char) (t : List Char)
    (h : cs.dropWhile isDigitC = c :: t) (hc : c ≠ '.') :
    pyFloatUnsigned cs =
      (if (cs.takeWhile isDigitC).isEmpty then none
       else expPart (mantissaVal (cs.takeWhile isDigitC) []) (c :: t)) := by
  simp only [pyFloatUnsigned, h]
  split
  · rename_i t' heq
    rw [List.cons.injEq] at heq
    exact absurd heq.1 hc
  · rfl

theorem pyFloatUnsigned_map_upper (cs : List Char) :
    pyFloatUnsigned (cs.map pyUpperChar) = pyFloatUnsigned cs := by
  cases hr : cs.dropWhile isDigitC with
  | nil =>
    have hl : (cs.map pyUpperChar).dropWhile isDigitC = [] := by
      rw [dropWhile_isDigitC_map_upper, hr]
      rfl
    rw [pyFloatUnsigned_nil _ hl, pyFloatUnsigned_nil _ hr, takeWhile_isDigitC_map_upper]
  | cons c rest =>
    by_cases hdot : c = '.'
    · subst hdot
      have hl : (cs.map pyUpperChar).dropWhile isDigitC = '.' :: rest.map pyUpperChar := by
        rw [dropWhile_isDigitC_map_upper, hr]
        rfl
      rw [pyFloatUnsigned_dot _ _ hl, pyFloatUnsigned_dot _ _ hr,
        takeWhile_isDigitC_map_upper, takeWhile_isDigitC_map_upper,
        dropWhile_isDigitC_map_upper]
      split
      · rfl
      · exact expPart_map_upper _ _
    · have hud : pyUpperChar c ≠ '.' :=
        fun hx => hdot ((pyUpperChar_eq_low c '.' (by decide)).mp hx)
      have hl : (cs.map pyUpperChar).dropWhile isDigitC =
          pyUpperChar c :: rest.map pyUpperChar := by
        rw [dropWhile_isDigitC_map_upper, hr]
        rfl
      rw [pyFloatUnsigned_nodot _ _ _ hl hud, pyFloatUnsigned_nodot _ _ _ hr hdot,
        takeWhile_isDigitC_map_upper]
      split
      · rfl
      · rw [show pyUpperChar c :: rest.map pyUpperChar = (c :: rest).map pyUpperChar from rfl]
        exact expPart_map_upper _ _

theorem pyFloatChars_map_upper (cs : List Char) :
    pyFloatChars (cs.map pyUpperChar) = pyFloatChars cs := by
  cases cs with
  | nil => rfl
  | cons c rest =>
    simp only [List.map_cons]
    by_cases hplus : c = '+'
    · subst hplus
      rw [show pyUpperChar '+' = '+' from rfl]
      show pyFloatUnsigned (rest.map pyUpperChar) = pyFloatUnsigned rest
      exact pyFloatUnsigned_map_upper rest
    · by_cases hminus : c = '-'
      · subst hminus
        rw [show pyUpperChar '-' = '-' from rfl]
        show (pyFloatUnsigned (rest.map pyUpperChar)).map PyNum.neg =
          (pyFloatUnsigned rest).map PyNum.neg
        rw [pyFloatUnsigned_map_upper rest]
      · have hup : pyUpperChar c ≠ '+' :=
          fun hx => hplus ((pyUpperChar_eq_low c '+' (by decide)).mp hx)
        have hum : pyUpperChar c ≠ '-' :=
          fun hx => hminus ((pyUpperChar_eq_low c '-' (by decide)).mp hx)
        have h1 : pyFloatChars (pyUpperChar c :: rest.map pyUpperChar) =
            pyFloatUnsigned (pyUpperChar c :: rest.map pyUpperChar) := by
          simp only [pyFloatChars]
          split
          · rename_i heq
            rw [List.cons.injEq] at heq
            exact absurd heq.1 hup
          · rename_i heq
            rw [List.cons.injEq] at heq
            exact absurd heq.1 hum
          · rfl
        have h2 : pyFloatChars (c :: rest) = pyFloatUnsigned (c :: rest) := by
          simp only [pyFloatChars]
          split
          · rename_i heq
            rw [List.cons.injEq] at heq
            exact absurd heq.1 hplus
          · rename_i heq
            rw [List.cons.injEq] at heq
            exact absurd heq.1 hminus
          · rfl
        rw [h1, h2]
        rw [show pyUpperChar c :: rest.map pyUpperChar = (c :: rest).map pyUpperChar from rfl]
        exact pyFloatUnsigned_map_upper (c :: rest)

/-- Upper-casing a string first does not change what `float(...)` parses:
the model's counterpart of `float(s.upper()) == float(s)` for decimal
literals. -/
theorem pyFloat_pyUpper (s : String) : pyFloat (pyUpper s) = pyFloat s :=
  pyFloatChars_map_upper s.data

/-! ### Pipeline unfolding lemmas -/

theorem expose_metrics_mem (ign : List String) (st : MetricsState) (o : String)
    (p : PyBytes) (h : o ∈ ign) : expose_metrics ign st o p = .ok st := by
  simp [expose_metrics, h]

theorem expose_metrics_not_mem (ign : List String) (st : MetricsState) (o : String)
    (p : PyBytes) (h : o ∉ ign) : expose_metrics ign st o p = process_message st o p := by
  simp [expose_metrics, h]

theorem process_message_none (st : MetricsState) (o : String) (p : PyBytes)
    (h : parse_message o p = .ok none) : process_message st o p = .ok st := by
  simp [process_message, h]

theorem process_message_error (st : MetricsState) (o : String) (p : PyBytes)
    (e : PyError) (h : parse_message o p = .error e) : process_message st o p = .error e := by
  simp [process_message, h]

theorem process_message_dict (st : MetricsState) (o : String) (p : PyBytes)
    (t : String) (fields : List (String × Json))
    (h : parse_message o p = .ok (some (t, .dict fields))) (ht : t ≠ "")
    (hf : fields ≠ []) :
    process_message st o p =
      .ok ⟨parse_metrics fields t "" st.prom_metrics, incCounter st.prom_msg_counter t⟩ := by
  cases fields with
  | nil => exact absurd rfl hf
  | cons f fs => simp [process_message, h, ht]

theorem process_message_empty_dict (st : MetricsState) (o : String) (p : PyBytes)
    (t : String) (h : parse_message o p = .ok (some (t, .dict []))) :
    process_message st o p = .ok st := by
  by_cases ht : t = ""
  · subst ht
    simp [process_message, h]
  · simp [process_message, h, ht]

theorem process_message_jsonText (st : MetricsState) (o : String) (p : PyBytes)
    (t : String) (d : List (String × Json))
    (h : parse_message o p = .ok (some (t, .jsonText d))) (ht : t ≠ "") :
    process_message st o p = .error .attributeError := by
  simp [process_message, h, ht]

theorem process_message_empty_topic (st : MetricsState) (o : String) (p : PyBytes)
    (pl : ParsedPayload) (h : parse_message o p = .ok (some ("", pl))) :
    process_message st o p = .ok st := by
  simp [process_message, h]

/-! ## Claim theorems -/

/-- C7: the scalar coercer `_parse_metric` equals the reference
definition: numeric input passes through unchanged; every case variant of
`"on"`/`"off"`/`"true"`/`"false"` (any string upper-casing to the state
word) yields `1`/`0`/`1`/`0`; and every other string yields the value of
parsing the string itself as a floating-point literal whenever that parse
succeeds.  The embedding is a pure function, matching the claim's "no side
effects" (the source computes and raises only). -/
theorem C7_coerce_matches_reference :
    (∀ q : PyNum, parse_metric (.num q) = .ok q) ∧
    (∀ s : String, pyUpper s = "ON" → parse_metric (.str s) = .ok ⟨1, 0⟩) ∧
    (∀ s : String, pyUpper s = "OFF" → parse_metric (.str s) = .ok ⟨0, 0⟩) ∧
    (∀ s : String, pyUpper s = "TRUE" → parse_metric (.str s) = .ok ⟨1, 0⟩) ∧
    (∀ s : String, pyUpper s = "FALSE" → parse_metric (.str s) = .ok ⟨0, 0⟩) ∧
    (∀ (s : String) (q : PyNum), lookupA (pyUpper s) STATE_VALUES = none →
      pyFloat s = some q → parse_metric (.str s) = .ok q) := by
  refine ⟨fun q => rfl, ?_, ?_, ?_, ?_, ?_⟩
  · intro s h
    simp [parse_metric, h, STATE_VALUES, lookupA]
  · intro s h
    simp [parse_metric, h, STATE_VALUES, lookupA]
  · intro s h
    simp [parse_metric, h, STATE_VALUES, lookupA]
  · intro s h
    simp [parse_metric, h, STATE_VALUES, lookupA]
  · intro s q hl hf
    simp only [parse_metric]
    rw [hl, pyFloat_pyUpper, hf]

/-- C7 witness: the coercer at concrete inputs through the theorem. -/
theorem C7_coerce_matches_reference_witness :
    parse_metric (.num ⟨205, 1⟩) = .ok ⟨205, 1⟩ ∧
    parse_metric (.str "oN") = .ok ⟨1, 0⟩ ∧
    parse_metric (.str "FaLsE") = .ok ⟨0, 0⟩ ∧
    parse_metric (.str "20.5") = .ok ⟨205, 1⟩ :=
  ⟨C7_coerce_matches_reference.1 ⟨205, 1⟩,
    C7_coerce_matches_reference.2.1 "oN" (by decide),
    C7_coerce_matches_reference.2.2.2.2.1 "FaLsE" (by decide),
    C7_coerce_matches_reference.2.2.2.2.2 "20.5" ⟨205, 1⟩ (by decide) (by decide)⟩

/-- C8: every input that is neither numeric (ints, floats — and Python
`bool`s, which are ints), nor a string that is a state word or parses as a
floating-point literal, makes `_parse_metric` fail with `ValueError`
(`NotNumeric`), carrying the offending value, rather than return a
value.  This covers dicts, lists, `None`, and unparseable text. -/
theorem C8_not_numeric_fails (v : Json)
    (hnum : ∀ q : PyNum, v ≠ .num q)
    (hbool : ∀ b : Bool, v ≠ .bool b)
    (hstr : ∀ s : String, v = .str s →
      lookupA (pyUpper s) STATE_VALUES = none ∧ pyFloat s = none) :
    ∃ w : Json, parse_metric v = .error w := by
  cases v with
  | num q => exact absurd rfl (hnum q)
  | bool b => exact absurd rfl (hbool b)
  | str s =>
    obtain ⟨hl, hf⟩ := hstr s rfl
    refine ⟨.str (pyUpper s), ?_⟩
    simp only [parse_metric]
    rw [hl, pyFloat_pyUpper, hf]
  | null => exact ⟨.null, rfl⟩
  | arr xs => exact ⟨.arr xs, rfl⟩
  | obj fields => exact ⟨.obj fields, rfl⟩

/-- C8 witness: `coerce("notanumber")` and `coerce({})` fail, through the
theorem. -/
theorem C8_not_numeric_fails_witness :
    (∃ w, parse_metric (.str "notanumber") = .error w) ∧
    (∃ w, parse_metric (.obj []) = .error w) :=
  ⟨C8_not_numeric_fails (.str "notanumber")
      (fun q h => Json.noConfusion h) (fun b h => Json.noConfusion h)
      (fun s hs => by
        cases hs
        exact ⟨by decide, by decide⟩),
    C8_not_numeric_fails (.obj [])
      (fun q h => Json.noConfusion h) (fun b h => Json.noConfusion h)
      (fun s hs => Json.noConfusion hs)⟩

/-- C9: inside the recursive metric extractor, a field whose (non-dict)
value fails coercion is simply skipped: the run over any payload
containing it equals the run over the payload with that field removed, so
sibling fields before and after it are processed unchanged and the message
is not aborted. -/
theorem C9_failed_field_skipped (m : GaugeMap) (t p : String)
    (pre post : List (String × Json)) (k : String) (v e : Json)
    (hobj : v.isObj = false) (herr : parse_metric v = .error e) :
    parse_metrics (pre ++ (k, v) :: post) t p m = parse_metrics (pre ++ post) t p m := by
  rw [parse_metrics_append, parse_metrics_append]
  simp only [parse_metrics]
  rw [parse_metrics_value_error k v t p _ e hobj herr]

/-- C9 witness: a failing middle field between two good siblings, through
the theorem. -/
theorem C9_failed_field_skipped_witness :
    parse_metrics [("a", .num ⟨1, 0⟩), ("bad", .str "x"), ("b", .num ⟨2, 0⟩)] "t" "" [] =
      parse_metrics [("a", .num ⟨1, 0⟩), ("b", .num ⟨2, 0⟩)] "t" "" [] :=
  C9_failed_field_skipped [] "t" "" [("a", .num ⟨1, 0⟩)] [("b", .num ⟨2, 0⟩)]
    "bad" (.str "x") (.str "X") rfl rfl

/-- C10: extraction is idempotent per (identifier, origin) pair and the
registry only grows.  (i) Running the extractor twice on the same
(origin, field, value) leaves the registry exactly as one run does —
setting replaces, never accumulates; (ii) after a successful run the
identifier has exactly one registry entry (given the registry's keys are
unique, as a Python dict's always are) holding that value for that origin
label; (iii) registry entries are never removed by any run; (iv) key
uniqueness is preserved, so entries are created at most once per
identifier; (v) at the ingestion level, each ingestion of such a message
still increments the message counter by one (so twice adds two), even
though the gauges are unchanged the second time. -/
theorem C10_idempotent_extraction :
    (∀ (m : GaugeMap) (t f : String) (v : Json) (q : PyNum), parse_metric v = .ok q →
      parse_metrics [(f, v)] t "" (parse_metrics [(f, v)] t "" m) =
        parse_metrics [(f, v)] t "" m) ∧
    (∀ (m : GaugeMap) (t f : String) (v : Json) (q : PyNum), parse_metric v = .ok q →
      (keysA m).Nodup →
      (keysA (parse_metrics [(f, v)] t "" m)).count (promMetricName "" f) = 1 ∧
      gaugeVal (parse_metrics [(f, v)] t "" m) (promMetricName "" f) t = some q) ∧
    (∀ (data : List (String × Json)) (t p : String) (m : GaugeMap) (x : String),
      x ∈ keysA m → x ∈ keysA (parse_metrics data t p m)) ∧
    (∀ (data : List (String × Json)) (t p : String) (m : GaugeMap),
      (keysA m).Nodup → (keysA (parse_metrics data t p m)).Nodup) ∧
    (∀ (ign : List String) (st : MetricsState) (o : String) (p : PyBytes) (t : String)
      (fields : List (String × Json)), o ∉ ign →
      parse_message o p = .ok (some (t, .dict fields)) → fields ≠ [] → t ≠ "" →
      ∃ st1 st2, expose_metrics ign st o p = .ok st1 ∧ expose_metrics ign st1 o p = .ok st2 ∧
        st2.prom_metrics = parse_metrics fields t "" st1.prom_metrics ∧
        (lookupA t st1.prom_msg_counter).getD 0 =
          (lookupA t st.prom_msg_counter).getD 0 + 1 ∧
        (lookupA t st2.prom_msg_counter).getD 0 =
          (lookupA t st.prom_msg_counter).getD 0 + 2) := by
  have hsingle : ∀ (m : GaugeMap) (t f : String) (v : Json) (q : PyNum),
      parse_metric v = .ok q →
      parse_metrics [(f, v)] t "" m = setGauge m (promMetricName "" f) t q := by
    intro m t f v q hv
    simp only [parse_metrics]
    rw [parse_metrics_value_ok f v t "" m q hv]
  refine ⟨?_, ?_, mem_keysA_parse_metrics, nodup_keysA_parse_metrics, ?_⟩
  · intro m t f v q hv
    rw [hsingle m t f v q hv, hsingle _ t f v q hv]
    exact setGauge_idem m (promMetricName "" f) t q
  · intro m t f v q hv hnd
    rw [hsingle m t f v q hv]
    exact ⟨count_keysA_setGauge m _ t q hnd, gaugeVal_setGauge_self m _ t q⟩
  · intro ign st o p t fields hig hpm hf ht
    have h1 := process_message_dict st o p t fields hpm ht hf
    have e1 : expose_metrics ign st o p =
        .ok ⟨parse_metrics fields t "" st.prom_metrics, incCounter st.prom_msg_counter t⟩ := by
      rw [expose_metrics_not_mem ign st o p hig, h1]
    set st1 : MetricsState :=
      ⟨parse_metrics fields t "" st.prom_metrics, incCounter st.prom_msg_counter t⟩ with hst1
    have h2 := process_message_dict st1 o p t fields hpm ht hf
    have e2 : expose_metrics ign st1 o p =
        .ok ⟨parse_metrics fields t "" st1.prom_metrics, incCounter st1.prom_msg_counter t⟩ := by
      rw [expose_metrics_not_mem ign st1 o p hig, h2]
    refine ⟨st1, _, e1, e2, rfl, ?_, ?_⟩
    · show (lookupA t (incCounter st.prom_msg_counter t)).getD 0 = _
      rw [lookupA_incCounter_self]
      rfl
    · show (lookupA t (incCounter st1.prom_msg_counter t)).getD 0 = _
      rw [lookupA_incCounter_self]
      show (lookupA t (incCounter st.prom_msg_counter t)).getD 0 + 1 = _
      rw [lookupA_incCounter_self]
      rfl

/-- C10 witness: re-ingesting `{"a": 5}` on `devices/x` from the empty
state, and the single-field registry facts, through the theorem. -/
theorem C10_idempotent_extraction_witness :
    (parse_metrics [("a", .num ⟨5, 0⟩)] "t" ""
        (parse_metrics [("a", .num ⟨5, 0⟩)] "t" "" []) =
      parse_metrics [("a", .num ⟨5, 0⟩)] "t" "" []) ∧
    ((keysA (parse_metrics [("a", .num ⟨5, 0⟩)] "t" "" [])).count "mqtt_a" = 1 ∧
      gaugeVal (parse_metrics [("a", .num ⟨5, 0⟩)] "t" "" []) "mqtt_a" "t" =
        some ⟨5, 0⟩) ∧
    (∃ st1 st2,
      expose_metrics IGNORED_TOPICS initState "devices/x" (.utf8 "\x7b\"a\": 5\x7d") =
        .ok st1 ∧
      expose_metrics IGNORED_TOPICS st1 "devices/x" (.utf8 "\x7b\"a\": 5\x7d") = .ok st2 ∧
      st2.prom_metrics = parse_metrics [("a", .num ⟨5, 0⟩)] "devices_x" "" st1.prom_metrics ∧
      (lookupA "devices_x" st1.prom_msg_counter).getD 0 =
        (lookupA "devices_x" initState.prom_msg_counter).getD 0 + 1 ∧
      (lookupA "devices_x" st2.prom_msg_counter).getD 0 =
        (lookupA "devices_x" initState.prom_msg_counter).getD 0 + 2) := by
  have h1 := C10_idempotent_extraction.1 [] "t" "a" (.num ⟨5, 0⟩) ⟨5, 0⟩ rfl
  have h2 := C10_idempotent_extraction.2.1 [] "t" "a" (.num ⟨5, 0⟩) ⟨5, 0⟩ rfl (by decide)
  have h5 := C10_idempotent_extraction.2.2.2.2 IGNORED_TOPICS initState "devices/x"
    (.utf8 "\x7b\"a\": 5\x7d") "devices_x" [("a", .num ⟨5, 0⟩)] (by decide) rfl
    (by simp) (by decide)
  exact ⟨h1, h2, h5⟩

/-- C3 counterexample: the payload `{}` decodes successfully to the empty
mapping on a non-ignored origin, yet ingestion leaves the state unchanged
— the message counter is not incremented (the claim requires an
unconditional increment after every successful decode, "even if the
decoded payload is empty").  The `if not topic or not payload` guard of
`expose_metrics` treats the falsy empty dict like a decode failure. -/
theorem C3_counter_counterexample :
    json_loads "\x7b\x7d" = some (.obj []) ∧
    "devices/x" ∉ IGNORED_TOPICS ∧
    expose_metrics IGNORED_TOPICS initState "devices/x" (.utf8 "\x7b\x7d") = .ok initState ∧
    lookupA "devices_x" initState.prom_msg_counter = none :=
  ⟨rfl, by decide, rfl, rfl⟩

/-- C3 amended: after a successful decode the counter behaviour is:
(1) a non-empty mapping with non-empty rewritten origin increments the
counter of that origin by exactly one and touches no other counter;
(2) an empty mapping, or an empty rewritten origin, drops the message with
no increment; (3) a non-mapping decode (with non-empty origin) raises
`AttributeError` before reaching the increment; and (4) a message whose
payload fails to decode leaves the whole state unchanged — no counter
increment and no gauge. -/
theorem C3_counter_amended :
    (∀ (ign : List String) (st : MetricsState) (o : String) (p : PyBytes) (t : String)
      (fields : List (String × Json)), o ∉ ign →
      parse_message o p = .ok (some (t, .dict fields)) → fields ≠ [] → t ≠ "" →
      ∃ st', expose_metrics ign st o p = .ok st' ∧
        (lookupA t st'.prom_msg_counter).getD 0 =
          (lookupA t st.prom_msg_counter).getD 0 + 1 ∧
        (∀ t', t' ≠ t → lookupA t' st'.prom_msg_counter = lookupA t' st.prom_msg_counter)) ∧
    (∀ (ign : List String) (st : MetricsState) (o : String) (p : PyBytes) (t : String)
      (fields : List (String × Json)), o ∉ ign →
      parse_message o p = .ok (some (t, .dict fields)) → (fields = [] ∨ t = "") →
      expose_metrics ign st o p = .ok st) ∧
    (∀ (ign : List String) (st : MetricsState) (o : String) (p : PyBytes) (t : String)
      (d : List (String × Json)), o ∉ ign →
      parse_message o p = .ok (some (t, .jsonText d)) → t ≠ "" →
      expose_metrics ign st o p = .error .attributeError) ∧
    (∀ (ign : List String) (st : MetricsState) (o : String) (p : PyBytes),
      parse_message o p = .ok none → expose_metrics ign st o p = .ok st) := by
  refine ⟨?_, ?_, ?_, ?_⟩
  · intro ign st o p t fields hig hpm hf ht
    rw [expose_metrics_not_mem ign st o p hig, process_message_dict st o p t fields hpm ht hf]
    refine ⟨_, rfl, ?_, ?_⟩
    · show (lookupA t (incCounter st.prom_msg_counter t)).getD 0 = _
      rw [lookupA_incCounter_self]
      rfl
    · intro t' ht'
      show lookupA t' (incCounter st.prom_msg_counter t) = _
      exact lookupA_incCounter_ne st.prom_msg_counter t t' ht'
  · intro ign st o p t fields hig hpm hcase
    rw [expose_metrics_not_mem ign st o p hig]
    rcases hcase with hfe | hte
    · subst hfe
      exact process_message_empty_dict st o p t hpm
    · subst hte
      exact process_message_empty_topic st o p _ hpm
  · intro ign st o p t d hig hpm ht
    rw [expose_metrics_not_mem ign st o p hig]
    exact process_message_jsonText st o p t d hpm ht
  · intro ign st o p hpm
    by_cases hig : o ∈ ign
    · exact expose_metrics_mem ign st o p hig
    · rw [expose_metrics_not_mem ign st o p hig]
      exact process_message_none st o p hpm

/-- C3 amended witness: each clause at a concrete input, through the
theorem: `{"x": 1}` increments `devices_a` by one; `{}` is dropped; `42`
crashes; `not valid json` changes nothing. -/
theorem C3_counter_amended_witness :
    (∃ st', expose_metrics IGNORED_TOPICS initState "devices/a" (.utf8 "\x7b\"x\": 1\x7d") =
        .ok st' ∧
      (lookupA "devices_a" st'.prom_msg_counter).getD 0 =
        (lookupA "devices_a" initState.prom_msg_counter).getD 0 + 1 ∧
      (∀ t', t' ≠ "devices_a" →
        lookupA t' st'.prom_msg_counter = lookupA t' initState.prom_msg_counter)) ∧
    expose_metrics IGNORED_TOPICS initState "devices/x" (.utf8 "\x7b\x7d") = .ok initState ∧
    expose_metrics IGNORED_TOPICS initState "devices/s" (.utf8 "42") =
      .error .attributeError ∧
    expose_metrics IGNORED_TOPICS initState "devices/x" (.utf8 "not valid json") =
      .ok initState := by
  refine ⟨?_, ?_, ?_, ?_⟩
  · exact C3_counter_amended.1 IGNORED_TOPICS initState "devices/a"
      (.utf8 "\x7b\"x\": 1\x7d") "devices_a" [("x", .num ⟨1, 0⟩)] (by decide) rfl
      (by simp) (by decide)
  · exact C3_counter_amended.2.1 IGNORED_TOPICS initState "devices/x" (.utf8 "\x7b\x7d")
      "devices_x" [] (by decide) rfl (Or.inl rfl)
  · exact C3_counter_amended.2.2.1 IGNORED_TOPICS initState "devices/s" (.utf8 "42")
      "devices_s" [("devices_s", .num ⟨42, 0⟩)] (by decide) rfl (by decide)
  · exact C3_counter_amended.2.2.2 IGNORED_TOPICS initState "devices/x"
      (.utf8 "not valid json") rfl

/-- C4 counterexample: ingesting origin `"shellies/kitchen/temperature"`
with payload `20.5` produces a state whose only gauge label is
`"shellies_kitchen"` — there is no entry labelled `"shellies/kitchen"`
anywhere, because `_parse_message` replaces `/` with `_` in the normalized
origin before it is used as a label. -/
theorem C4_shelly_label_counterexample :
    expose_metrics IGNORED_TOPICS initState "shellies/kitchen/temperature" (.utf8 "20.5") =
      .ok ⟨[("mqtt_temperature", [("shellies_kitchen", ⟨205, 1⟩)])],
        [("shellies_kitchen", 1)]⟩ ∧
    gaugeVal [("mqtt_temperature", [("shellies_kitchen", ⟨205, 1⟩)])]
      "mqtt_temperature" "shellies/kitchen" = none ∧
    lookupA "shellies/kitchen" ([("shellies_kitchen", 1)] : CounterMap) = none ∧
    ("shellies_kitchen" : String) ≠ "shellies/kitchen" :=
  ⟨rfl, rfl, rfl, by decide⟩

/-- C4 amended: the ingestion produces the gauge `mqtt_temperature` with
field name `temperature`, value `20.5` (`205/10¹`, rationally `41/2`), but
under the origin label `"shellies_kitchen"`: the first two origin segments
joined by `/` and then rewritten `/` → `_`. -/
theorem C4_shelly_label_amended :
    expose_metrics IGNORED_TOPICS initState "shellies/kitchen/temperature" (.utf8 "20.5") =
      .ok ⟨[("mqtt_temperature", [("shellies_kitchen", ⟨205, 1⟩)])],
        [("shellies_kitchen", 1)]⟩ ∧
    gaugeVal [("mqtt_temperature", [("shellies_kitchen", ⟨205, 1⟩)])]
      "mqtt_temperature" "shellies_kitchen" = some ⟨205, 1⟩ ∧
    (PyNum.mk 205 1).toRat = 41 / 2 ∧
    lookupA "shellies_kitchen" ([("shellies_kitchen", 1)] : CounterMap) = some 1 :=
  ⟨rfl, rfl, by norm_num [PyNum.toRat], rfl⟩

/-- C5 counterexample: the default ignore-set is not empty.  Splitting the
default `MQTT_IGNORED_TOPICS=""` on `","` yields `[""]`, so the empty
origin is a member and a message on it is dropped by the ignore check. -/
theorem C5_default_ignore_counterexample :
    IGNORED_TOPICS ≠ [] ∧
    "" ∈ IGNORED_TOPICS ∧
    expose_metrics IGNORED_TOPICS initState "" (.utf8 "\x7b\"a\": 1\x7d") = .ok initState :=
  ⟨by decide, by decide, rfl⟩

/-- C5 amended: the ignore check of the ingestion pipeline drops a message
— with no state change at all — exactly when its origin is an exact string
member of the configured ignore list (otherwise the body runs unchanged);
and the default configuration's list is `[""]` (splitting the empty
environment value on `","`), so by default exactly the empty origin is
dropped by this check. -/
theorem C5_ignore_check_amended :
    (∀ (ign : List String) (st : MetricsState) (o : String) (p : PyBytes), o ∈ ign →
      expose_metrics ign st o p = .ok st) ∧
    (∀ (ign : List String) (st : MetricsState) (o : String) (p : PyBytes), o ∉ ign →
      expose_metrics ign st o p = process_message st o p) ∧
    IGNORED_TOPICS = [""] ∧
    (∀ o : String, o ∈ IGNORED_TOPICS ↔ o = "") := by
  refine ⟨expose_metrics_mem, expose_metrics_not_mem, by decide, ?_⟩
  intro o
  show o ∈ [""] ↔ o = ""
  simp

/-- C5 amended witness: the empty origin is dropped and a non-member
origin runs the body, through the theorem. -/
theorem C5_ignore_check_amended_witness :
    expose_metrics IGNORED_TOPICS initState "" (.utf8 "1") = .ok initState ∧
    expose_metrics IGNORED_TOPICS initState "devices/x" (.utf8 "1") =
      process_message initState "devices/x" (.utf8 "1") :=
  ⟨C5_ignore_check_amended.1 IGNORED_TOPICS initState "" (.utf8 "1") (by decide),
    C5_ignore_check_amended.2.1 IGNORED_TOPICS initState "devices/x" (.utf8 "1")
      (by decide)⟩

/-- A field path containing no sanitizable character resolves to the
prefix followed by the path verbatim. -/
theorem promMetricName_clean (p : String)
    (hp : ∀ c ∈ p.data, c ≠ '.' ∧ c ≠ ' ' ∧ c ≠ '(') :
    promMetricName "" p = ⟨"mqtt_".data ++ p.data⟩ := by
  unfold promMetricName
  have hdata : (PREFIX ++ "" ++ p).data = "mqtt_".data ++ p.data := by
    rw [String.data_append, String.data_append]
    rfl
  rw [hdata]
  have hpre : ∀ c ∈ "mqtt_".data, c ≠ '.' ∧ c ≠ ' ' ∧ c ≠ '(' := by decide
  have hall : ∀ c ∈ "mqtt_".data ++ p.data, c ≠ '.' ∧ c ≠ ' ' ∧ c ≠ '(' := by
    intro c hc
    rcases List.mem_append.mp hc with h | h
    · exact hpre c h
    · exact hp c h
  have hfilter : ("mqtt_".data ++ p.data).filter (fun c => c ≠ '.') =
      "mqtt_".data ++ p.data := by
    rw [List.filter_eq_self]
    intro a ha
    simpa using (hall a ha).1
  rw [hfilter]
  have hmap : ("mqtt_".data ++ p.data).map (fun c => if c = ' ' then '_' else c) =
      ("mqtt_".data ++ p.data).map id := by
    apply List.map_congr_left
    intro a ha
    simp [if_neg (hall a ha).2.1]
  rw [hmap, List.map_id]
  have hopen : '(' ∉ "mqtt_".data ++ p.data := by
    intro hc
    exact (hall '(' hc).2.2 rfl
  rw [stripParens_of_no_open _ hopen]

/-- C6 counterexample: the resolver is not injective on field paths that
differ in characters unaffected by sanitization.  `"ad)e"` and
`"a(b(c)d)e"` have different unaffected residues (`"ad)e"` contains no
parenthesized substring at all, so all four of its characters are
unaffected), yet both resolve to the metric name `"mqtt_ad)e"`: the lazy
regex `\((.*?)\)` deletes `(b(c)` — up to the first `')'` only — from the
second path, leaving exactly the first. -/
theorem C6_resolver_counterexample :
    ("ad)e" : String) ≠ "a(b(c)d)e" ∧
    unaffectedResidue "ad)e" ≠ unaffectedResidue "a(b(c)d)e" ∧
    promMetricName "" "ad)e" = promMetricName "" "a(b(c)d)e" :=
  ⟨by decide, by decide, rfl⟩

/-- C6 amended: the resolver is injective on field paths built only from
characters that sanitization cannot touch — no `'.'`, no `' '`, and no
`'('` (a `')'` without any `'('` is harmless): for such paths
`resolve(p) = PREFIX ++ p`, so distinct paths yield distinct metric
identifiers. -/
theorem C6_resolver_injective_amended (p1 p2 : String) (hne : p1 ≠ p2)
    (h1 : ∀ c ∈ p1.data, c ≠ '.' ∧ c ≠ ' ' ∧ c ≠ '(')
    (h2 : ∀ c ∈ p2.data, c ≠ '.' ∧ c ≠ ' ' ∧ c ≠ '(') :
    promMetricName "" p1 ≠ promMetricName "" p2 := by
  rw [promMetricName_clean p1 h1, promMetricName_clean p2 h2]
  intro he
  have hd : "mqtt_".data ++ p1.data = "mqtt_".data ++ p2.data := congrArg String.data he
  have hp : p1.data = p2.data := List.append_cancel_left hd
  apply hne
  cases p1
  cases p2
  cases hp
  rfl

/-- C6 amended witness: two distinct clean paths resolve to distinct
names, through the theorem. -/
theorem C6_resolver_injective_amended_witness :
    promMetricName "" "humidity" ≠ promMetricName "" "linkquality" :=
  C6_resolver_injective_amended "humidity" "linkquality" (by decide) (by decide) (by decide)

/-- C1: evaluating the code on JSON payload `42` at origin
`"devices/sensor1"`.  The claim says the decoded scalar is wrapped as
`{"sensor1": 42}` and extracted into a gauge; the code instead (a) wraps
it under the key `"devices_sensor1"` — the whole rewritten origin, because
`topic.split("/")` runs after `topic.replace("/", "_")` — and (b) returns
the wrapped dict re-serialized by `json.dumps`, so `_parse_metrics`
receives a `str` and the callback dies with `AttributeError` at
`payload.items()`: no gauge is ever created for any scalar payload. -/
theorem C1_scalar_wrap_crash :
    parse_message "devices/sensor1" (.utf8 "42") =
      .ok (some ("devices_sensor1", .jsonText [("devices_sensor1", .num ⟨42, 0⟩)])) ∧
    expose_metrics IGNORED_TOPICS initState "devices/sensor1" (.utf8 "42") =
      .error .attributeError :=
  ⟨rfl, rfl⟩

/-- C2: a failure that is not local: a Shelly-marked origin with
undecodable payload bytes raises `UnicodeDecodeError` out of the message
callback — `payload.decode()` in `_normalize_shelly_msg` runs before the
`try` block of `_parse_message`, so the handler there never sees it.
(Together with the `AttributeError` of `C1_scalar_wrap_crash`, this
refutes "never terminates the pipeline".) -/
theorem C2_shelly_binary_crash :
    expose_metrics IGNORED_TOPICS initState "shellies/kitchen/temperature" .invalid =
      .error .unicodeDecodeError :=
  rfl

end ZigbeeExporter
